import Mathlib

/-!
# Verification of the depsonar dependency-health monitor

Shallow embedding of the core services of the `depsonar` repository
(`src/services/osv.ts`, `src/services/migrate.ts`, `src/services/changelog.ts`,
the background checker, and the multi-project aggregators), together with
proofs settling the specification claims about them.

Conventions used throughout:
* JavaScript numbers that the code only ever treats as integers are `Nat`/`Int`;
  CVSS scores (compared against `9.0`, `7.0`, `4.0`) are `ℚ`.
* JavaScript `undefined`/`null` is `Option`; the falsiness of `""` and `0` is
  modelled explicitly where the code relies on it (`!score`, `x || y`).
* Network and file-system effects are oracle parameters (functions passed to
  the embedded definitions); a failed / timed-out / non-OK fetch is `none`.
* Thrown exceptions are `Except.error`; `try { } catch { }` blocks become the
  corresponding `Option`/branch handling.
-/

namespace Depsonar

/-! ## String helpers

Structurally recursive re-implementations of the string operations the
JavaScript code uses (`split`, `toLowerCase`, `includes`, `startsWith`,
`Number(...)`), so that every definition evaluates by kernel reduction. -/

/-- JavaScript `split` on a character class: cut the character list at every character
satisfying `p`, keeping empty segments (JavaScript `String.prototype.split`
with a single-character or character-class separator). -/
def splitByAux (p : Char → Bool) : List Char → List Char → List String
  | [], acc => [String.mk acc.reverse]
  | c :: rest, acc =>
    if p c then String.mk acc.reverse :: splitByAux p rest []
    else splitByAux p rest (c :: acc)

/-- JavaScript `s.split(sep)` for a one-character separator `sep`. -/
def splitChar (sep : Char) (s : String) : List String :=
  splitByAux (· = sep) s.toList []

/-- The lines of a text, as in `text.split("\n")`. -/
def splitLines (text : String) : List String := splitChar '\n' text

/-- JavaScript `query.split(/\s+/).filter(Boolean)`: whitespace-separated
nonempty tokens. -/
def splitWhitespace (s : String) : List String :=
  (splitByAux (·.isWhitespace) s.toList []).filter (· ≠ "")

/-- Lower-casing, as in `s.toLowerCase()` (ASCII, via `Char.toLower`). -/
def toLowerStr (s : String) : String := String.mk (s.toList.map Char.toLower)

/-- Whether `sub` occurs as a contiguous run inside `s`. -/
def listInfixOf (sub : List Char) : List Char → Bool
  | [] => sub.isEmpty
  | c :: rest => sub.isPrefixOf (c :: rest) || listInfixOf sub rest

/-- JavaScript `s.includes(sub)`. -/
def strIncludes (s sub : String) : Bool := listInfixOf sub.toList s.toList

/-- JavaScript `s.startsWith(pre)`. -/
def strStartsWith (s pre : String) : Bool := pre.toList.isPrefixOf s.toList

/-- The numeric value of a decimal digit character, if it is one. -/
def digitVal (c : Char) : Option ℕ :=
  if '0' ≤ c ∧ c ≤ '9' then some (c.toNat - '0'.toNat) else none

/-- Parse a nonempty all-digit character list as a natural number. -/
def parseNatChars : List Char → Option ℕ
  | [] => none
  | [c] => digitVal c
  | c :: rest => do
    let d ← digitVal c
    let n ← parseNatChars rest
    pure (d * 10 ^ rest.length + n)

/-! ## Severity mapping (src/services/osv.ts, `mapSeverity`) -/

inductive Severity where
  | critical
  | high
  | moderate
  | low
deriving DecidableEq, Repr

/-- Embedding of `mapSeverity(score?: number)` from `src/services/osv.ts`:
`if (!score) return "moderate"` — note that in JavaScript `!score` is `true`
both when `score` is `undefined` and when it is `0`. -/
def mapSeverity (score : Option ℚ) : Severity :=
  match score with
  | none => .moderate
  | some s =>
    if s = 0 then .moderate
    else if s ≥ 9 then .critical
    else if s ≥ 7 then .high
    else if s ≥ 4 then .moderate
    else .low

/-! ## Background checker health score (`checker.ts`, `main`) -/

/-- Embedding of the score computation in the background checker's `main`:
`let score = 100; score -= Math.min(outdatedCount * 3, 40);
score -= majorCount * 10; score = Math.max(0, Math.min(100, score));`. -/
def healthScore (outdatedCount majorCount : ℕ) : ℤ :=
  let s0 : ℤ := 100
  let s1 : ℤ := s0 - min ((outdatedCount : ℤ) * 3) 40
  let s2 : ℤ := s1 - (majorCount : ℤ) * 10
  max 0 (min 100 s2)

/-! ## Update-type classification (src/services/changelog.ts, `getUpdateType`) -/

inductive UpdateType where
  | patch
  | minor
  | major
deriving DecidableEq, Repr

/-- JavaScript `Number(t) || 0` on a dotted-version component: a numeric
component parses to itself, everything else (including `NaN`) collapses to 0. -/
def parseComponent (t : String) : ℕ := (parseNatChars t.toList).getD 0

/-- The list `current.split(".").map(Number)` as used by `getUpdateType`. -/
def parseVersion (s : String) : List ℕ := (splitChar '.' s).map parseComponent

/-- Embedding of `getUpdateType(current, latest)` from
`src/services/changelog.ts`: compares `(l[0]||0) > (c[0]||0)` then
`(l[1]||0) > (c[1]||0)`, defaulting to `patch`. -/
def getUpdateType (current latest : String) : UpdateType :=
  let c := parseVersion current
  let l := parseVersion latest
  if l.getD 0 0 > c.getD 0 0 then .major
  else if l.getD 1 0 > c.getD 1 0 then .minor
  else .patch

/-- Lexicographic "strictly newer" on parsed dotted versions, missing
components reading as 0: there is a first index where the two differ and
there `latest` is larger. -/
def VersionLt (current latest : String) : Prop :=
  ∃ k, (∀ j < k, (parseVersion latest).getD j 0 = (parseVersion current).getD j 0) ∧
    (parseVersion latest).getD k 0 > (parseVersion current).getD k 0

/-! ## Documentation query filtering (src/services/osv.ts, `filterByQuery`) -/

/-- JavaScript `[].join(sep)` / `[a, b, ...].join(sep)`. -/
def joinSep (sep : String) : List String → String
  | [] => ""
  | [s] => s
  | s :: rest => s ++ sep ++ joinSep sep rest

/-- The test `keywords.some(kw => lower.includes(kw))` applied to a line, where
`lower` is the lower-cased line. -/
def lineMatches (keywords : List String) (line : String) : Bool :=
  keywords.any (fun kw => strIncludes (toLowerStr line) kw)

/-- The keywords `query.toLowerCase().split(/\s+/).filter(Boolean)`. -/
def queryKeywords (q : String) : List String := splitWhitespace (toLowerStr q)

/-- The set `matchedLineNums` built by `filterByQuery`, listed in ascending
order (it is populated with windows `[max(0, i-ctx), min(len-1, i+ctx)]`
around each matching line `i` and then sorted before use): the line numbers
`j < lines.length` within distance `ctx` of a keyword-matching line. -/
def matchedLineNums (lines keywords : List String) (ctx : ℕ) : List ℕ :=
  (List.range lines.length).filter (fun j =>
    (List.range lines.length).any (fun i =>
      lineMatches keywords (lines.getD i "") && decide (i ≤ j + ctx) &&
        decide (j ≤ i + ctx)))

/-- The chunk-joining loop at the end of `filterByQuery`: walk the sorted
matched line numbers keeping `lastLine` (initially `-2`), inserting a
`"\n...\n"` separator before every gap. -/
def joinChunks (lines : List String) : List ℕ → ℤ → List String
  | [], _ => []
  | n :: rest, lastLine =>
    if (n : ℤ) > lastLine + 1 then
      "\n...\n" :: lines.getD n "" :: joinChunks lines rest (n : ℤ)
    else lines.getD n "" :: joinChunks lines rest (n : ℤ)

/-- Embedding of `filterByQuery(text, query?, contextLines = 5)` from
`src/services/osv.ts`. `!query || !text` is the JavaScript falsiness test,
true for an absent query and for empty strings. -/
def filterByQuery (text : String) (query : Option String) (ctx : ℕ := 5) : String :=
  match query with
  | none => text
  | some q =>
    if q = "" ∨ text = "" then text
    else
      let lines := splitLines text
      let m := matchedLineNums lines (queryKeywords q) ctx
      if m = [] then text
      else joinSep "\n" (joinChunks lines m (-2))

/-! ## Document truncation (src/services/osv.ts, `truncateDoc`) -/

/-- Embedding of `truncateDoc(text, maxLines = 200)`. -/
def truncateDoc (text : String) (maxLines : ℕ := 200) : String :=
  let lines := splitLines text
  if lines.length ≤ maxLines then text
  else
    joinSep "\n" (lines.take maxLines) ++
      "\n\n... (truncated, " ++ toString (lines.length - maxLines) ++ " more lines)"

/-! ## OSV batch querying (src/services/osv.ts, `queryOsv`)

The network is an oracle `net : ℕ → Option _` mapping the start index of a
batch to the decoded `results` array of the response; `none` models every
way a batch can fail (fetch exception, 15s timeout, `!resp.ok`, body that
does not parse). -/

structure Pkg where
  name : String
  version : String
deriving DecidableEq

/-- The decoded fields of one raw OSV advisory that `queryOsv` reads:
optional fields model the `?.` chains of the source. -/
structure RawVuln where
  id : String
  summary : Option String      -- `vuln.summary`
  details : Option String      -- `vuln.details`
  score : Option ℚ             -- `vuln.severity?.[0]?.score`
  fixed : Option String        -- `affected?.[0]?.ranges?.[0]?.events` first `fixed`
  refUrl : Option String       -- `vuln.references?.[0]?.url`
  published : Option String    -- `vuln.published`
deriving DecidableEq

structure OsvVulnerability where
  id : String
  summary : String
  severity : Severity
  package : String
  ecosystem : String
  affectedRange : String
  fixedVersion : Option String
  url : String
  published : String
deriving DecidableEq

/-- JavaScript `a || b` for a possibly-absent string `a`: empty strings are
falsy and fall through to `b`. -/
def jsOr (a : Option String) (b : String) : String :=
  match a with
  | none => b
  | some s => if s = "" then b else s

/-- JavaScript `a || null` for a possibly-absent string `a`. -/
def jsOrNone (a : Option String) : Option String :=
  match a with
  | none => none
  | some s => if s = "" then none else some s

/-- JavaScript `s.slice(0, n)`. -/
def strSlice (n : ℕ) (s : String) : String := String.mk (s.toList.take n)

/-- The `vulns.push({...})` record construction inside `queryOsv`,
attributing advisory `v` to package `pkg`. -/
def mkVuln (eco : String) (pkg : Pkg) (v : RawVuln) : OsvVulnerability :=
  { id := v.id
    summary := jsOr v.summary (jsOr (v.details.map (strSlice 200)) "No description")
    severity := mapSeverity v.score
    package := pkg.name
    ecosystem := eco
    affectedRange := pkg.version ++ " (installed)"
    fixedVersion := jsOrNone v.fixed
    url := jsOr v.refUrl ("https://osv.dev/vulnerability/" ++ v.id)
    published := jsOr v.published "" }

/-- One entry of the `queries` array: `{ package: { name, ecosystem }, version }`. -/
structure OsvQuery where
  pname : String
  ecosystem : String
  version : String
deriving DecidableEq

def toQuery (eco : String) (p : Pkg) : OsvQuery := ⟨p.name, eco, p.version⟩

/-- Number of iterations of `for (let i = 0; i < queries.length; i += 100)`. -/
def numBatches (n : ℕ) : ℕ := (n + 99) / 100

/-- The start indices `0, 100, 200, ...` visited by the batching loop. -/
def batchStarts (n : ℕ) : List ℕ := (List.range (numBatches n)).map (· * 100)

/-- The slice `queries.slice(i, i + 100)`. -/
def osvBatch (queries : List OsvQuery) (i : ℕ) : List OsvQuery :=
  (queries.drop i).take 100

/-- The request bodies issued by `queryOsv`, in order. -/
def osvRequests (packages : List Pkg) (eco : String) : List (List OsvQuery) :=
  (batchStarts packages.length).map (osvBatch (packages.map (toQuery eco)))

/-- The response of a batch request: `none` for any failed batch, otherwise
the `results` array, each entry carrying its optional `vulns` list. -/
abbrev OsvNet := ℕ → Option (List (Option (List RawVuln)))

/-- The inner `for (let j = 0; j < data.results.length; j++)` loop of
`queryOsv` for the batch starting at `i`: entries with no `vulns` are
skipped; otherwise `packages[i + j]` is read — if that index is out of
range, `pkg.name` throws `TypeError` inside the batch's `try`, aborting the
rest of this batch while keeping everything already pushed. -/
def processResults (packages : List Pkg) (eco : String) (i : ℕ) :
    List (Option (List RawVuln)) → ℕ → List OsvVulnerability
  | [], _ => []
  | none :: rest, j => processResults packages eco i rest (j + 1)
  | some [] :: rest, j => processResults packages eco i rest (j + 1)
  | some (v :: vs) :: rest, j =>
    match packages[i + j]? with
    | none => []
    | some pkg => (v :: vs).map (mkVuln eco pkg) ++ processResults packages eco i rest (j + 1)

/-- The vulnerabilities contributed by the batch starting at index `i`. -/
def queryOsvBatch (net : OsvNet) (packages : List Pkg) (eco : String) (i : ℕ) :
    List OsvVulnerability :=
  match net i with
  | none => []
  | some results => processResults packages eco i results 0

/-- Embedding of `queryOsv(packages, ecosystem)`: the outer batching loop,
appending each batch's contribution to `vulns`. -/
def queryOsv (net : OsvNet) (packages : List Pkg) (eco : String) :
    List OsvVulnerability :=
  (batchStarts packages.length).flatMap (queryOsvBatch net packages eco)

/-- The specification's account of one batch (claim C1): the advisory list
at batch-local index `j` of the response is attributed, advisory by
advisory, to the package at global index `i + j` of the original list. -/
def specAttributedVulns (packages : List Pkg) (eco : String) (i : ℕ)
    (results : List (Option (List RawVuln))) : List OsvVulnerability :=
  (List.enumFrom 0 results).flatMap (fun jr =>
    match jr.2 with
    | some (v :: vs) => (v :: vs).map (mkVuln eco (packages.getD (i + jr.1) ⟨"", ""⟩))
    | _ => [])

/-! ## Migration detection (src/services/migrate.ts)

A project tree is a finite directory structure; file contents are stored in
the tree (`readFileSync` failures are the `none` branch of `readFile`).
Paths are component lists relative to the project root, so the
`file.replace(projectPath + "/", "")` of the source is the identity here.
A regex pattern's matcher is the oracle
`exec : String → ℕ → Option ℕ`: `regex.test(line)` starting from
`lastIndex`, returning the new `lastIndex` after a successful match. -/

inductive IssueType where
  | breaking
  | deprecated
  | recommended
deriving DecidableEq, Repr

structure MigrationIssue where
  itype : IssueType
  pattern : String
  file : List String
  line : ℕ
  message : String
  migration : String
deriving DecidableEq, Repr

inductive FsEntry where
  | file (name : String) (content : String)
  | dir (name : String) (entries : List FsEntry)
deriving Repr

def entryName : FsEntry → String
  | .file n _ => n
  | .dir n _ => n

def SKIP_DIRS : List String :=
  ["node_modules", ".git", ".svelte-kit", ".next", ".nuxt", "dist", "build",
   ".vercel", ".cache", "vendor", "target", "__pycache__"]

/-- Index of the last occurrence of `c`, if any. -/
def lastIdxOf (c : Char) : List Char → Option ℕ
  | [] => none
  | x :: rest =>
    match lastIdxOf c rest with
    | some i => some (i + 1)
    | none => if x = c then some 0 else none

/-- Node's `path.extname` on a bare file name: the suffix from the last
`.`, empty when there is no `.` or when the only `.` is the leading one. -/
def extname (name : String) : String :=
  match lastIdxOf '.' name.toList with
  | none => ""
  | some i => if i = 0 then "" else String.mk (name.toList.drop i)

mutual

/-- Embedding of `walkFiles(dir, extensions, maxDepth, depth)`: `fuel` is
`maxDepth + 1 - depth`, so the source's `if (depth > maxDepth) return []`
is the `fuel = 0` case. -/
def walkFiles (exts : List String) : ℕ → List FsEntry → List (List String)
  | 0, _ => []
  | _ + 1, [] => []
  | fuel + 1, e :: rest => walkEntry exts fuel e ++ walkFiles exts (fuel + 1) rest
termination_by _ es => sizeOf es

/-- One iteration of the `for (const entry of readdirSync(dir))` body:
every entry whose name starts with `"."` or is in `SKIP_DIRS` is skipped
before the file/directory distinction is made. -/
def walkEntry (exts : List String) (fuel : ℕ) : FsEntry → List (List String)
  | .file n _ =>
    if strStartsWith n "." || decide (n ∈ SKIP_DIRS) then []
    else if decide (extname n ∈ exts) then [[n]] else []
  | .dir n sub =>
    if strStartsWith n "." || decide (n ∈ SKIP_DIRS) then []
    else (walkFiles exts fuel sub).map (n :: ·)
termination_by e => sizeOf e

end

/-- Look a path up in the tree, returning the file's content. -/
def readFile : List FsEntry → List String → Option String
  | es, [n] =>
    es.findSome? (fun e =>
      match e with
      | .file m c => if m = n then some c else none
      | .dir _ _ => none)
  | es, n :: rest =>
    es.findSome? (fun e =>
      match e with
      | .dir m sub => if m = n then readFile sub rest else none
      | .file _ _ => none)
  | _, [] => none
termination_by _ p => p.length

structure MigPattern where
  source : String
  fileExtensions : List String
  ptype : IssueType
  message : String
  migration : String
  exec : String → ℕ → Option ℕ

structure MigRule where
  framework : String
  fromMajor : ℕ
  toMajor : ℕ
  guideUrl : String
  patterns : List MigPattern

structure MigrationResult where
  project : String
  framework : String
  currentVersion : String
  latestMajor : Option String
  migrationNeeded : Bool
  issues : List MigrationIssue
  migrationGuideUrl : Option String
deriving Repr

/-- The line loop of `detectMigration` for one file: `i` is the 0-based
line index, the last argument is the shared regex object's `lastIndex`
carried in from earlier tests. `pattern.regex.lastIndex = 0` runs before
each test, which is why each test uses cursor position `0`; a successful
`test` moves `lastIndex` to the end of the match, a failed one resets it
to 0. Returns the issues plus the regex's final `lastIndex`. -/
def scanFileLines (p : MigPattern) (file : List String) :
    List String → ℕ → ℕ → List MigrationIssue × ℕ
  | [], _, li => ([], li)
  | l :: rest, i, _ =>
    match p.exec l 0 with
    | some e =>
      (({ itype := p.ptype, pattern := p.source, file := file, line := i + 1,
          message := p.message, migration := p.migration } : MigrationIssue) ::
        (scanFileLines p file rest (i + 1) e).1,
       (scanFileLines p file rest (i + 1) e).2)
    | none => scanFileLines p file rest (i + 1) 0

/-- The file loop of `detectMigration` for one pattern: the regex object is
shared across files, so its `lastIndex` is threaded through; an unreadable
file is skipped (`try { readFileSync ... } catch {}`). -/
def scanPatternFiles (p : MigPattern) (tree : List FsEntry) :
    List (List String) → ℕ → List MigrationIssue
  | [], _ => []
  | f :: rest, li =>
    match readFile tree f with
    | none => scanPatternFiles p tree rest li
    | some content =>
      (scanFileLines p f (splitLines content) 0 li).1 ++
        scanPatternFiles p tree rest (scanFileLines p f (splitLines content) 0 li).2

/-- One pattern's pass over the project: `walkFiles(projectPath,
pattern.fileExtensions)` (defaults `maxDepth = 5`, `depth = 0`, i.e. fuel
6) then the file loop. -/
def scanPattern (p : MigPattern) (tree : List FsEntry) : List MigrationIssue :=
  scanPatternFiles p tree (walkFiles p.fileExtensions 6 tree) 0

/-- Embedding of `framework.toLowerCase().replace("sveltekit", "svelte").replace("next.js", "next")`
(JavaScript `replace` with a string pattern replaces the first occurrence). -/
def listReplaceFirst : List Char → List Char → List Char → List Char
  | s, pat, rep =>
    if pat.isPrefixOf s then rep ++ s.drop pat.length
    else
      match s with
      | [] => []
      | c :: t => c :: listReplaceFirst t pat rep
termination_by s _ _ => s.length

def replaceFirst (s pat rep : String) : String :=
  String.mk (listReplaceFirst s.toList pat.toList rep.toList)

def normalizeFramework (fw : String) : String :=
  replaceFirst (replaceFirst (toLowerStr fw) "sveltekit" "svelte") "next.js" "next"

/-- Embedding of `detectMigration(projectPath, projectName, framework)`.
`currentMajor` is the result of the file-system-reading
`getFrameworkMajor` (an oracle here); the source's `if (!currentMajor)`
also treats a parsed major of `0` as absent. -/
def detectMigration (tree : List FsEntry) (projectName framework : String)
    (currentMajor : Option ℕ) (rules : List MigRule) : MigrationResult :=
  let base : MigrationResult :=
    { project := projectName
      framework := framework
      currentVersion :=
        match currentMajor with
        | some m => if m = 0 then "unknown" else toString m ++ ".x"
        | none => "unknown"
      latestMajor := none
      migrationNeeded := false
      issues := []
      migrationGuideUrl := none }
  match currentMajor with
  | none => base
  | some m =>
    if m = 0 then base
    else
      match rules.filter (fun r =>
          decide (toLowerStr r.framework = normalizeFramework framework) &&
            decide (r.fromMajor = m)) with
      | [] => base
      | rule :: _ =>
        { base with
          latestMajor := some (toString rule.toMajor ++ ".x")
          migrationGuideUrl := some rule.guideUrl
          issues := rule.patterns.flatMap (fun p => scanPattern p tree)
          migrationNeeded :=
            decide (0 < (rule.patterns.flatMap (fun p => scanPattern p tree)).length) }

/-- A project as handed to `detectAllMigrations`: its tree, name, declared
framework and resolved framework major. -/
structure MigProjectSpec where
  tree : List FsEntry
  name : String
  framework : String
  currentMajor : Option ℕ

/-- Embedding of `detectAllMigrations(projects)`. -/
def detectAllMigrations (projects : List MigProjectSpec) (rules : List MigRule) :
    List MigrationResult :=
  (projects.map (fun p => detectMigration p.tree p.name p.framework p.currentMajor rules)).filter
    (·.migrationNeeded)

/-- Well-formedness of a directory level: sibling names are distinct, as
`readdirSync` guarantees, recursively. -/
def entryWF : FsEntry → Prop
  | .file _ _ => True
  | .dir _ sub => (sub.map entryName).Nodup ∧ ∀ e ∈ sub, entryWF e
termination_by e => sizeOf e
decreasing_by
  rename_i sub _ hmem
  have := List.sizeOf_lt_of_mem hmem
  simp_wf
  omega

def treeWF (es : List FsEntry) : Prop :=
  (es.map entryName).Nodup ∧ ∀ e ∈ es, entryWF e

/-- The (pattern, file, line) key of an issue, for the at-most-one claim. -/
def issueKey (is : MigrationIssue) : String × List String × ℕ :=
  (is.pattern, is.file, is.line)

/-- The specification's account of one pattern's scan (claim C6): each line
is tested independently at cursor position 0; line `i` (0-based) of a
readable collected file contributes exactly one issue, at line number
`i + 1`, when the pattern matches it. -/
def specPatternIssues (p : MigPattern) (tree : List FsEntry) : List MigrationIssue :=
  (walkFiles p.fileExtensions 6 tree).flatMap (fun f =>
    match readFile tree f with
    | none => []
    | some content =>
      ((List.enumFrom 0 (splitLines content)).filter (fun il => (p.exec il.2 0).isSome)).map
        (fun il =>
          { itype := p.ptype, pattern := p.source, file := f, line := il.1 + 1,
            message := p.message, migration := p.migration }))

/-! ## Documentation aggregation (src/services/osv.ts, `fetchLibraryDocs`)

`net` is the `fetchUrl` oracle keyed by URL (`none` for any timeout,
exception or non-OK response); `parseNpm` stands for `JSON.parse` of the
registry body plus field access; `extractRepo` stands for the regex-based
`extractGitHubRepo`. Percent-encoding of the package name in the registry
URL is not modelled (the URL is only an oracle key). -/

structure NpmRegistryData where
  latest : Option String        -- `npmJson["dist-tags"]?.latest`
  description : Option String
  homepage : Option String
  repositoryUrl : Option String -- `npmJson.repository?.url`
  readme : Option String

structure DocResult where
  package : String
  version : String
  description : String
  repository : String
  readme : String
  changelog : String
  migrationGuide : String
  homepage : String
deriving DecidableEq

/-- The `opts` record; `none` models an omitted field, and the source
only reacts to an explicit `false` (`opts.readme !== false`). -/
structure DocsOpts where
  readme : Option Bool
  changelog : Option Bool
  migration : Option Bool

def registryUrl (pkg : String) : String := "https://registry.npmjs.org/" ++ pkg

def rawUrl (owner repo p : String) : String :=
  "https://raw.githubusercontent.com/" ++ owner ++ "/" ++ repo ++ "/HEAD/" ++ p

/-- Embedding of `fetchFirstFound`: fetch all candidate paths, then take
the first response longer than 50 characters, in path order. -/
def fetchFirstFound (net : String → Option String) (owner repo : String)
    (paths : List String) : String :=
  match (paths.map (fun p => net (rawUrl owner repo p))).find? (fun r =>
      match r with
      | some s => decide (50 < s.length)
      | none => false) with
  | some (some s) => s
  | _ => ""

def getMonorepoPaths (baseName : String) (files : List String) : List String :=
  files ++ files.map (fun f => "packages/" ++ baseName ++ "/" ++ f)

/-- The `MIGRATION_PATHS` table. -/
def MIGRATION_PATHS (k : String) : Option (List String) :=
  if k = "svelte" then
    some ["documentation/docs/07-misc/07-v5-migration-guide.md",
          "packages/svelte/CHANGELOG.md"]
  else if k = "@sveltejs/kit" then
    some ["documentation/docs/25-build-and-deploy/99-migration-guide.md",
          "packages/kit/CHANGELOG.md"]
  else if k = "next" then
    some ["docs/01-app/02-building-your-application/10-upgrading/01-version-15.mdx",
          "docs/01-app/02-building-your-application/10-upgrading/02-version-14.mdx"]
  else if k = "tailwindcss" then some ["packages/tailwindcss/CHANGELOG.md", "CHANGELOG.md"]
  else if k = "vite" then some ["packages/vite/CHANGELOG.md", "CHANGELOG.md"]
  else if k = "better-auth" then some ["CHANGELOG.md"]
  else if k = "@supabase/supabase-js" then some ["CHANGELOG.md"]
  else if k = "stripe" then some ["CHANGELOG.md", "UPGRADING.md"]
  else if k = "react" then some ["CHANGELOG.md"]
  else if k = "vue" then some ["CHANGELOG.md"]
  else if k = "express" then some ["History.md"]
  else none

/-- The base name `pkg.startsWith("@") ? pkg.split("/")[1] : pkg`; with no `/` the index
is `undefined`, which later renders as the string `"undefined"`. -/
def pkgBaseName (pkg : String) : String :=
  if strStartsWith pkg "@" then
    match (splitChar '/' pkg)[1]? with
    | some s => s
    | none => "undefined"
  else pkg

/-- Embedding of `query ? filterByQuery(text, query) : text` — an empty query string is
falsy and leaves the text unfiltered. -/
def maybeFilter (text : String) (query : Option String) : String :=
  match query with
  | some q => if q = "" then text else filterByQuery text (some q) 5
  | none => text

/-- Embedding of `fetchLibraryDocs(pkg, query?, opts)`. The only `throw`s
in the source are the two registry-metadata checks at the top; every later
fetch goes through `fetchUrl`/`fetchFirstFound`, whose failures yield
`null`/`""` and leave the corresponding result field empty. -/
def fetchLibraryDocs (net : String → Option String)
    (parseNpm : String → Option NpmRegistryData)
    (extractRepo : String → Option (String × String))
    (pkg : String) (query : Option String) (opts : DocsOpts) :
    Except String DocResult :=
  match net (registryUrl pkg) with
  | none => .error ("Package \"" ++ pkg ++ "\" not found on npm.")
  | some npmData =>
    match parseNpm npmData with
    | none => .error ("Invalid npm data for \"" ++ pkg ++ "\".")
    | some npmJson =>
      let gh := extractRepo (jsOr npmJson.repositoryUrl "")
      let repository :=
        match gh with
        | some (o, r) => "https://github.com/" ++ o ++ "/" ++ r
        | none => ""
      let readme :=
        if opts.readme ≠ some false then
          let r0 := jsOr npmJson.readme ""
          let r1 :=
            if r0 = "" ∨ r0.length < 100 then
              match gh with
              | some (o, r) => fetchFirstFound net o r ["README.md", "readme.md", "Readme.md"]
              | none => r0
            else r0
          if r1 ≠ "" then truncateDoc (maybeFilter r1 query) 300 else ""
        else ""
      let changelog :=
        if opts.changelog ≠ some false then
          match gh with
          | some (o, r) =>
            let cl := fetchFirstFound net o r (getMonorepoPaths (pkgBaseName pkg)
              ["CHANGELOG.md", "changelog.md", "CHANGES.md", "HISTORY.md", "History.md"])
            if cl ≠ "" then truncateDoc (maybeFilter cl query) 200 else ""
          | none => ""
        else ""
      let migrationGuide :=
        if opts.migration ≠ some false then
          match gh with
          | some (o, r) =>
            let g1 :=
              match (MIGRATION_PATHS pkg).orElse (fun _ => MIGRATION_PATHS (pkgBaseName pkg)) with
              | some knownPaths =>
                let guide := fetchFirstFound net o r knownPaths
                if guide ≠ "" then truncateDoc (maybeFilter guide query) 300 else ""
              | none => ""
            if g1 = "" then
              let guide := fetchFirstFound net o r (getMonorepoPaths (pkgBaseName pkg)
                ["MIGRATION.md", "UPGRADING.md", "UPGRADE.md", "migration.md", "upgrading.md",
                 "docs/migration.md", "docs/upgrading.md", "docs/MIGRATION.md"])
              if guide ≠ "" then truncateDoc (maybeFilter guide query) 300 else ""
            else g1
          | none => ""
        else ""
      .ok
        { package := pkg
          version := jsOr npmJson.latest ""
          description := jsOr npmJson.description ""
          repository := repository
          readme := readme
          changelog := changelog
          migrationGuide := migrationGuide
          homepage := jsOr npmJson.homepage "" }

/-! ## Background checker and multi-project aggregation
(`checker.ts` `main`, src/services/osv.ts `liveAuditAllProjects`,
src/services/migrate.ts `detectAllMigrations`)

`getOutdated`, `isMajorUpdate` and the package inventory live in the
checker's `services/project.js` and behind subprocess calls; they are
oracle parameters. The `checkedAt`/`queriedAt` wall-clock timestamps are
not modelled. -/

structure ProjectInfo where
  name : String
  path : String
  language : String
  framework : String
deriving DecidableEq

structure OutdatedPkg where
  current : String
  latest : String
deriving DecidableEq

structure CacheEntry where
  project : String
  path : String
  language : String
  framework : String
  outdatedCount : ℕ
  majorCount : ℕ
  securityIssues : ℕ
  score : ℤ
deriving DecidableEq

/-- The `entries.push({...})` of the checker's `main` loop: counts, the
skipped audit (`securityIssues: 0`), and the health score. -/
def mkCacheEntry (isMajorUpdate : String → String → Bool) (info : ProjectInfo)
    (outdated : List (String × OutdatedPkg)) : CacheEntry :=
  { project := info.name
    path := info.path
    language := info.language
    framework := info.framework
    outdatedCount := outdated.length
    majorCount := (outdated.filter (fun p => isMajorUpdate p.2.current p.2.latest)).length
    securityIssues := 0
    score := healthScore outdated.length
      (outdated.filter (fun p => isMajorUpdate p.2.current p.2.latest)).length }

/-- The cache contents written by `writeCache(entries)`: one entry per
project whose `getOutdated` call did not throw, in discovery order —
with no condition on the outdated count. -/
def checkerEntries (getOutdated : ProjectInfo → Option (List (String × OutdatedPkg)))
    (isMajorUpdate : String → String → Bool) (projects : List ProjectInfo) :
    List CacheEntry :=
  projects.filterMap (fun info => (getOutdated info).map (mkCacheEntry isMajorUpdate info))

/-- The checker's logged alert count:
`entries.filter((e) => e.outdatedCount > 0).length`. -/
def checkerAlertCount (entries : List CacheEntry) : ℕ :=
  (entries.filter (fun e => decide (0 < e.outdatedCount))).length

structure LiveCveResult where
  project : String
  vulnerabilities : List OsvVulnerability
  packagesQueried : ℕ
  source : String
deriving DecidableEq

/-- The `ECOSYSTEM_MAP` table. -/
def ECOSYSTEM_MAP (language : String) : Option String :=
  if language = "node" then some "npm"
  else if language = "python" then some "PyPI"
  else if language = "rust" then some "crates.io"
  else if language = "go" then some "Go"
  else if language = "php" then some "Packagist"
  else if language = "ruby" then some "RubyGems"
  else if language = "dart" then some "Pub"
  else none

/-- Embedding of `liveAuditProject`; `inv` is the file-system-reading
`getInstalledPackages` oracle. -/
def liveAuditProject (net : OsvNet) (inv : String → String → List Pkg)
    (path name language : String) : LiveCveResult :=
  match ECOSYSTEM_MAP language with
  | none =>
    { project := name, vulnerabilities := [], packagesQueried := 0, source := "osv.dev" }
  | some eco =>
    { project := name
      vulnerabilities := queryOsv net (inv path language) eco
      packagesQueried := (inv path language).length
      source := "osv.dev" }

/-- Embedding of `liveAuditAllProjects`: audit each project in order and
keep only results with `result.vulnerabilities.length > 0`. -/
def liveAuditAllProjects (net : ProjectInfo → OsvNet) (inv : String → String → List Pkg) :
    List ProjectInfo → List LiveCveResult
  | [] => []
  | p :: rest =>
    if 0 < (liveAuditProject (net p) inv p.path p.name p.language).vulnerabilities.length then
      liveAuditProject (net p) inv p.path p.name p.language ::
        liveAuditAllProjects net inv rest
    else liveAuditAllProjects net inv rest

/-! ## Concrete sample data used to instantiate the theorems -/

/-- A one-file Svelte project tree. -/
def sampleTree : List FsEntry :=
  [.file "App.svelte" "export let a; export let b\nhello"]

/-- The first Svelte 4→5 pattern of `MIGRATION_RULES`, with a concrete
matcher standing in for `/export\s+let\s+/g`. -/
def samplePattern : MigPattern :=
  { source := "export\\s+let\\s+"
    fileExtensions := [".svelte"]
    ptype := .breaking
    message := "export let props are replaced by the props rune"
    migration := "Use the props rune instead"
    exec := fun l li => if strIncludes l "export let " then some (li + 11) else none }

/-- The Svelte 4→5 rule of `MIGRATION_RULES`, restricted to `samplePattern`. -/
def sampleRules : List MigRule :=
  [{ framework := "svelte"
     fromMajor := 4
     toMajor := 5
     guideUrl := "https://svelte.dev/docs/svelte/v5-migration-guide"
     patterns := [samplePattern] }]

end Depsonar

/-! # Theorems for the claims -/

namespace Depsonar

/-- C2: the background checker's health score equals
`clamp(100 - min(3*n, 40) - 10*m, 0, 100)`; in particular
`n=0,m=0 ↦ 100`, `n=20,m=0 ↦ 60`, `n=1,m=1 ↦ 87`. -/
theorem healthScore_spec :
    (∀ n m : ℕ, healthScore n m =
      max 0 (min 100 (100 - min (3 * (n : ℤ)) 40 - 10 * (m : ℤ)))) ∧
    healthScore 0 0 = 100 ∧ healthScore 20 0 = 60 ∧ healthScore 1 1 = 87 := by
  refine ⟨fun n m => ?_, by decide, by decide, by decide⟩
  unfold healthScore
  ring_nf

/-- C3 counterexample: a present numeric score of `0` is below `4.0`, so the
claim says `mapSeverity` returns `low` there, but the code's `!score` test
treats `0` like an absent score and returns `moderate`. -/
theorem mapSeverity_zero_counterexample :
    (0 : ℚ) < 4 ∧ mapSeverity (some 0) = .moderate ∧ mapSeverity (some 0) ≠ .low := by
  refine ⟨by norm_num, ?_, ?_⟩ <;> decide

/-- C3 (amended): a present nonzero score maps to `critical` when `s ≥ 9`,
`high` when `7 ≤ s < 9`, `moderate` when `4 ≤ s < 7`, `low` for every other
present nonzero score `s < 4`; an absent score, or a present score equal to
`0`, maps to `moderate`. -/
theorem mapSeverity_thresholds :
    (∀ s : ℚ, s ≠ 0 →
      mapSeverity (some s) =
        (if s ≥ 9 then .critical else if s ≥ 7 then .high
         else if s ≥ 4 then .moderate else .low)) ∧
    mapSeverity none = .moderate ∧ mapSeverity (some 0) = .moderate := by
  refine ⟨fun s hs => ?_, rfl, by decide⟩
  simp [mapSeverity, hs]

/-- C3 witness: instantiating the threshold theorem at score `5`. -/
theorem mapSeverity_thresholds_witness :
    mapSeverity (some 5) =
      (if (5 : ℚ) ≥ 9 then .critical else if (5 : ℚ) ≥ 7 then .high
       else if (5 : ℚ) ≥ 4 then .moderate else .low) :=
  mapSeverity_thresholds.1 5 (by norm_num)

/-- C9: for versions with `latest` strictly newer (first differing component
larger), `getUpdateType` classifies by the first differing component: `major`
when the leading components differ, `minor` when the leading agree and the
second differ, `patch` otherwise; with the three spec examples. -/
theorem getUpdateType_first_diff (current latest : String)
    (h : VersionLt current latest) :
    (getUpdateType current latest =
      (if (parseVersion latest).getD 0 0 ≠ (parseVersion current).getD 0 0 then .major
       else if (parseVersion latest).getD 1 0 ≠ (parseVersion current).getD 1 0 then .minor
       else .patch)) ∧
    getUpdateType "3.2.0" "4.0.0" = .major ∧
    getUpdateType "3.2.0" "3.5.0" = .minor ∧
    getUpdateType "3.2.0" "3.2.9" = .patch := by
  refine ⟨?_, by decide, by decide, by decide⟩
  obtain ⟨k, hpre, hk⟩ := h
  have key : ((parseVersion latest).getD 0 0 > (parseVersion current).getD 0 0) ∨
      ((parseVersion latest).getD 0 0 = (parseVersion current).getD 0 0 ∧
        (parseVersion latest).getD 1 0 > (parseVersion current).getD 1 0) ∨
      ((parseVersion latest).getD 0 0 = (parseVersion current).getD 0 0 ∧
        (parseVersion latest).getD 1 0 = (parseVersion current).getD 1 0) := by
    match k with
    | 0 => exact Or.inl hk
    | 1 => exact Or.inr (Or.inl ⟨hpre 0 (by omega), hk⟩)
    | (n + 2) => exact Or.inr (Or.inr ⟨hpre 0 (by omega), hpre 1 (by omega)⟩)
  unfold getUpdateType
  rcases key with h1 | ⟨h1, h2⟩ | ⟨h1, h2⟩
  · rw [if_pos h1, if_pos (by omega)]
  · rw [if_neg (by omega), if_pos h2, if_neg (by omega), if_pos (by omega)]
  · rw [if_neg (by omega), if_neg (by omega), if_neg (by omega)]
    rw [if_neg (by omega)]

/-- C4: when no line of the text contains any keyword of a non-empty query,
`filterByQuery` returns the full (pre-truncation) text unchanged — not an
empty string, not a truncated version. -/
theorem filterByQuery_no_match_full_text (text q : String) (ctx : ℕ) (hq : q ≠ "")
    (hmatch : ∀ line ∈ splitLines text, ∀ kw ∈ queryKeywords q,
      strIncludes (toLowerStr line) kw = false) :
    filterByQuery text (some q) ctx = text := by
  show (if q = "" ∨ text = "" then text
    else
      let lines := splitLines text
      let m := matchedLineNums lines (queryKeywords q) ctx
      if m = [] then text else joinSep "\n" (joinChunks lines m (-2))) = text
  by_cases ht : text = ""
  · rw [if_pos (Or.inr ht)]
  · rw [if_neg (by simp [hq, ht])]
    have hm : matchedLineNums (splitLines text) (queryKeywords q) ctx = [] := by
      unfold matchedLineNums
      refine List.filter_eq_nil_iff.mpr ?_
      intro j hj hany
      rcases List.any_eq_true.mp hany with ⟨i, hi, hpred⟩
      rw [List.mem_range] at hi
      simp only [Bool.and_eq_true, decide_eq_true_eq] at hpred
      obtain ⟨⟨hlm, -⟩, -⟩ := hpred
      unfold lineMatches at hlm
      rcases List.any_eq_true.mp hlm with ⟨kw, hkw, hinc⟩
      have hmem : (splitLines text).getD i "" ∈ splitLines text := by
        rw [List.getD_eq_getElem _ _ hi]
        exact List.getElem_mem hi
      rw [hmatch _ hmem kw hkw] at hinc
      exact Bool.false_ne_true hinc
    simp [hm]

/-- C4 witness: a two-line changelog and the query `"breaking removal"`,
none of whose keywords occurs in the text, is returned in full. -/
theorem filterByQuery_no_match_full_text_witness :
    filterByQuery "# changes\nv2 adds feature x" (some "breaking removal") 5 =
      "# changes\nv2 adds feature x" :=
  filterByQuery_no_match_full_text "# changes\nv2 adds feature x" "breaking removal" 5
    (by decide) (by decide)

section MigrateLemmas

/-- The issues emitted for one file do not depend on the regex cursor
carried in (`lastIndex` is reset before every test): they are exactly one
issue per matching line, keyed by the 0-based line index. -/
lemma scanFileLines_fst (p : MigPattern) (f : List String) :
    ∀ (lines : List String) (i li : ℕ),
      (scanFileLines p f lines i li).1 =
        ((List.enumFrom i lines).filter (fun il => (p.exec il.2 0).isSome)).map
          (fun il =>
            { itype := p.ptype, pattern := p.source, file := f, line := il.1 + 1,
              message := p.message, migration := p.migration }) := by
  intro lines
  induction lines with
  | nil => intro i li; rfl
  | cons l rest ih =>
    intro i li
    cases h : p.exec l 0 with
    | none =>
      simp only [scanFileLines, h, List.enumFrom, List.filter_cons, Option.isSome_none,
        Bool.false_eq_true, if_false]
      exact ih (i + 1) 0
    | some e =>
      simp only [scanFileLines, h, List.enumFrom, List.filter_cons, Option.isSome_some,
        if_true, List.map_cons]
      exact congrArg _ (ih (i + 1) e)

/-- The file loop emits, file by file, the per-line issues of each readable
file, independently of the regex cursor state threaded between files. -/
lemma scanPatternFiles_eq (p : MigPattern) (tree : List FsEntry) :
    ∀ (files : List (List String)) (li : ℕ),
      scanPatternFiles p tree files li =
        files.flatMap (fun f =>
          match readFile tree f with
          | none => []
          | some content =>
            ((List.enumFrom 0 (splitLines content)).filter
                (fun il => (p.exec il.2 0).isSome)).map
              (fun il =>
                { itype := p.ptype, pattern := p.source, file := f, line := il.1 + 1,
                  message := p.message, migration := p.migration })) := by
  intro files
  induction files with
  | nil => intro li; rfl
  | cons f rest ih =>
    intro li
    cases h : readFile tree f with
    | none =>
      simp only [scanPatternFiles, h, List.flatMap_cons, List.nil_append]
      exact ih li
    | some content =>
      simp only [scanPatternFiles, h, List.flatMap_cons, scanFileLines_fst]
      exact congrArg _ (ih _)

/-- The per-pattern scan equals its per-line specification. -/
lemma scanPattern_eq_spec (p : MigPattern) (tree : List FsEntry) :
    scanPattern p tree = specPatternIssues p tree :=
  scanPatternFiles_eq p tree _ 0

/-- Paths contributed by one directory entry start with that entry's name. -/
lemma walkEntry_head (exts : List String) (fuel : ℕ) (e : FsEntry)
    (pth : List String) (h : pth ∈ walkEntry exts fuel e) :
    ∃ t, pth = entryName e :: t := by
  cases e with
  | file n c =>
    simp only [walkEntry] at h
    split at h
    · simp at h
    · split at h
      · rcases List.mem_singleton.mp h with rfl
        exact ⟨[], rfl⟩
      · simp at h
  | dir n sub =>
    simp only [walkEntry] at h
    split at h
    · simp at h
    · rcases List.mem_map.mp h with ⟨q, -, rfl⟩
      exact ⟨q, rfl⟩

/-- Every walked path starts with the name of one of the entries. -/
lemma walkFiles_mem_head (exts : List String) :
    ∀ (fuel : ℕ) (es : List FsEntry) (pth : List String),
      pth ∈ walkFiles exts fuel es → ∃ e ∈ es, ∃ t, pth = entryName e :: t := by
  intro fuel
  cases fuel with
  | zero => intro es pth h; simp [walkFiles] at h
  | succ fuel =>
    intro es
    induction es with
    | nil => intro pth h; simp [walkFiles] at h
    | cons e rest ih =>
      intro pth h
      rw [walkFiles] at h
      rcases List.mem_append.mp h with h1 | h2
      · rcases walkEntry_head exts fuel e pth h1 with ⟨t, rfl⟩
        exact ⟨e, List.mem_cons_self e rest, t, rfl⟩
      · rcases ih pth h2 with ⟨e', he', t, rfl⟩
        exact ⟨e', List.mem_cons_of_mem e he', t, rfl⟩

/-- On a well-formed tree the walk yields no duplicate paths. -/
lemma walkFiles_nodup (exts : List String) :
    ∀ (fuel : ℕ) (es : List FsEntry),
      (es.map entryName).Nodup → (∀ e ∈ es, entryWF e) →
      (walkFiles exts fuel es).Nodup := by
  intro fuel
  induction fuel with
  | zero => intro es _ _; simp [walkFiles]
  | succ fuel ihf =>
    intro es
    induction es with
    | nil => intro _ _; simp [walkFiles]
    | cons e rest ih =>
      intro hnames hwf
      rw [walkFiles, List.nodup_append]
      refine ⟨?_, ?_, ?_⟩
      · cases e with
        | file n c =>
          simp only [walkEntry]
          split
          · exact List.nodup_nil
          · split
            · exact List.nodup_singleton _
            · exact List.nodup_nil
        | dir n sub =>
          simp only [walkEntry]
          split
          · exact List.nodup_nil
          · have hsub := hwf (.dir n sub) (List.mem_cons_self _ _)
            rw [entryWF] at hsub
            exact (ihf sub hsub.1 hsub.2).map fun a b hab => by injection hab
      · exact ih (List.Nodup.of_cons hnames) fun x hx => hwf x (List.mem_cons_of_mem e hx)
      · intro pth h1 h2
        rcases walkEntry_head exts fuel e pth h1 with ⟨t, heq⟩
        rcases walkFiles_mem_head exts (fuel + 1) rest pth h2 with ⟨e', he', t', heq'⟩
        have : entryName e = entryName e' := by
          rw [heq] at heq'
          exact (List.cons.injEq _ _ _ _ ▸ heq').1
        rw [List.map_cons, List.nodup_cons] at hnames
        exact hnames.1 (this ▸ List.mem_map_of_mem entryName he')

/-- No walked path is empty or contains a dot-prefixed component: hidden
entries are skipped whether they are files or directories. -/
lemma walkFiles_no_hidden (exts : List String) :
    ∀ (fuel : ℕ) (es : List FsEntry) (pth : List String),
      pth ∈ walkFiles exts fuel es →
      pth ≠ [] ∧ ∀ c ∈ pth, strStartsWith c "." = false := by
  intro fuel
  induction fuel with
  | zero => intro es pth h; simp [walkFiles] at h
  | succ fuel ihf =>
    intro es
    induction es with
    | nil => intro pth h; simp [walkFiles] at h
    | cons e rest ih =>
      intro pth h
      rw [walkFiles] at h
      rcases List.mem_append.mp h with h1 | h2
      · cases e with
        | file n c =>
          simp only [walkEntry] at h1
          split at h1
          · simp at h1
          · rename_i hskip
            split at h1
            · rcases List.mem_singleton.mp h1 with rfl
              refine ⟨by simp, ?_⟩
              intro x hx
              rcases List.mem_singleton.mp hx with rfl
              simp only [Bool.or_eq_true, not_or, Bool.not_eq_true] at hskip
              exact hskip.1
            · simp at h1
        | dir n sub =>
          simp only [walkEntry] at h1
          split at h1
          · simp at h1
          · rename_i hskip
            rcases List.mem_map.mp h1 with ⟨q, hq, rfl⟩
            rcases ihf sub q hq with ⟨-, hqcomp⟩
            refine ⟨by simp, ?_⟩
            intro x hx
            rcases List.mem_cons.mp hx with rfl | hx'
            · simp only [Bool.or_eq_true, not_or, Bool.not_eq_true] at hskip
              exact hskip.1
            · exact hqcomp x hx'
      · exact ih pth h2

/-- The per-line issues of one file have pairwise distinct keys (their line
numbers come from distinct line indices). -/
lemma specFile_keys_nodup (p : MigPattern) (f : List String) (content : String) :
    ((((List.enumFrom 0 (splitLines content)).filter
        (fun il => (p.exec il.2 0).isSome)).map
      (fun il =>
        ({ itype := p.ptype, pattern := p.source, file := f, line := il.1 + 1,
           message := p.message, migration := p.migration } : MigrationIssue))).map
        issueKey).Nodup := by
  have h1 : (((List.enumFrom 0 (splitLines content)).filter
      (fun il => (p.exec il.2 0).isSome)).map Prod.fst).Nodup := by
    have hnd : ((List.enumFrom 0 (splitLines content)).map Prod.fst).Nodup := by
      rw [List.enumFrom_map_fst]
      exact List.nodup_range' _ _
    exact hnd.sublist ((List.filter_sublist _).map Prod.fst)
  have h2 : Function.Injective (fun n : ℕ => (p.source, f, n + 1)) := by
    intro a b hab
    simp only [Prod.mk.injEq, true_and] at hab
    omega
  rw [List.map_map]
  show (((List.enumFrom 0 (splitLines content)).filter
      (fun il => (p.exec il.2 0).isSome)).map
    ((fun n : ℕ => (p.source, f, n + 1)) ∘ Prod.fst)).Nodup
  rw [← List.map_map]
  exact h1.map h2

/-- Fields of a per-pattern issue: its key's pattern component is the
pattern source and its file is one of the walked paths. -/
lemma specPatternIssues_fields (p : MigPattern) (tree : List FsEntry) :
    ∀ is ∈ specPatternIssues p tree,
      is.pattern = p.source ∧ is.file ∈ walkFiles p.fileExtensions 6 tree := by
  intro is h
  unfold specPatternIssues at h
  rcases List.mem_flatMap.mp h with ⟨f, hf, hin⟩
  cases hrf : readFile tree f with
  | none => rw [hrf] at hin; simp at hin
  | some content =>
    rw [hrf] at hin
    rcases List.mem_map.mp hin with ⟨il, -, rfl⟩
    exact ⟨rfl, hf⟩

/-- Across the (duplicate-free) walked files of one pattern, issue keys
stay pairwise distinct. -/
lemma specPatternIssues_keys_nodup (p : MigPattern) (tree : List FsEntry)
    (hfiles : (walkFiles p.fileExtensions 6 tree).Nodup) :
    ((specPatternIssues p tree).map issueKey).Nodup := by
  unfold specPatternIssues
  rw [List.map_flatMap, List.nodup_flatMap]
  constructor
  · intro f hf
    cases hrf : readFile tree f with
    | none => simp
    | some content => exact specFile_keys_nodup p f content
  · have hkey : ∀ (f : List String) (k : String × List String × ℕ),
        k ∈ (match readFile tree f with
          | none => ([] : List MigrationIssue)
          | some content =>
            ((List.enumFrom 0 (splitLines content)).filter
                (fun il : ℕ × String => (p.exec il.2 0).isSome)).map
              (fun il : ℕ × String =>
                { itype := p.ptype, pattern := p.source, file := f, line := il.1 + 1,
                  message := p.message, migration := p.migration })).map issueKey →
        k.2.1 = f := by
      intro f k hk
      cases hrf : readFile tree f with
      | none => rw [hrf] at hk; simp at hk
      | some content =>
        rw [hrf] at hk
        rcases List.mem_map.mp hk with ⟨is, his, rfl⟩
        rcases List.mem_map.mp his with ⟨il, -, rfl⟩
        rfl
    refine List.Pairwise.imp ?_ hfiles
    intro f g hfg k hk1 hk2
    exact hfg ((hkey f k hk1) ▸ (hkey g k hk2))

/-- The function `detectMigration` either reports no issues (no resolvable major, major
`0`, or no applicable rule) or reports exactly the aggregate of the first
applicable rule's per-pattern scans. -/
lemma detectMigration_issues (tree : List FsEntry) (name fw : String) (cm : Option ℕ)
    (rules : List MigRule) :
    (detectMigration tree name fw cm rules).issues = [] ∨
    ∃ rule ∈ rules, (detectMigration tree name fw cm rules).issues =
      rule.patterns.flatMap (fun p => scanPattern p tree) := by
  cases cm with
  | none => exact Or.inl rfl
  | some m =>
    by_cases hm : m = 0
    · exact Or.inl (by simp [detectMigration, hm])
    · cases hfl : rules.filter (fun r =>
          decide (toLowerStr r.framework = normalizeFramework fw) &&
            decide (r.fromMajor = m)) with
      | nil =>
        left
        simp [detectMigration, hm, hfl]
      | cons rule rest =>
        right
        refine ⟨rule, List.mem_of_mem_filter (hfl ▸ List.mem_cons_self rule rest), ?_⟩
        simp [detectMigration, hm, hfl]

/-- The flag `migrationNeeded` is set from `result.issues.length > 0`. -/
lemma detectMigration_needed_iff (tree : List FsEntry) (name fw : String)
    (cm : Option ℕ) (rules : List MigRule) :
    ((detectMigration tree name fw cm rules).migrationNeeded = true ↔
      (detectMigration tree name fw cm rules).issues ≠ []) := by
  cases cm with
  | none => simp [detectMigration]
  | some m =>
    by_cases hm : m = 0
    · simp [detectMigration, hm]
    · cases hfl : rules.filter (fun r =>
          decide (toLowerStr r.framework = normalizeFramework fw) &&
            decide (r.fromMajor = m)) with
      | nil => simp [detectMigration, hm, hfl]
      | cons rule rest =>
        simp [detectMigration, hm, hfl]
        constructor
        · intro hpos
          by_contra hc
          push_neg at hc
          have hall : ∀ y ∈ rule.patterns.map (List.length ∘ fun p => scanPattern p tree),
              y = 0 := by
            intro y hy
            rcases List.mem_map.mp hy with ⟨p, hp, rfl⟩
            simp [hc p hp]
          rw [List.sum_eq_zero hall] at hpos
          exact Nat.lt_irrefl 0 hpos
        · rintro ⟨p, hp, hne⟩
          have h1 : 0 < (scanPattern p tree).length := List.length_pos.mpr hne
          have h2 : (List.length ∘ fun p => scanPattern p tree) p ≤
              (rule.patterns.map (List.length ∘ fun p => scanPattern p tree)).sum :=
            List.single_le_sum (fun _ _ => Nat.zero_le _) _ (List.mem_map_of_mem _ hp)
          exact Nat.lt_of_lt_of_le h1 h2

end MigrateLemmas

/-- C6: each pattern is tested against each line independently at a reset
cursor (the scan equals its stateless per-line specification), the issue
list has at most one entry per (pattern, file, line) key even when a
pattern could match several times on one line, and `migrationNeeded` holds
iff the issue list is non-empty. -/
theorem detectMigration_line_independent (tree : List FsEntry) (name fw : String)
    (cm : Option ℕ) (rules : List MigRule) (hwf : treeWF tree)
    (hsrc : ∀ r ∈ rules, (r.patterns.map (fun p => p.source)).Nodup) :
    (∀ p : MigPattern, scanPattern p tree = specPatternIssues p tree) ∧
    ((detectMigration tree name fw cm rules).issues.map issueKey).Nodup ∧
    ((detectMigration tree name fw cm rules).migrationNeeded = true ↔
      (detectMigration tree name fw cm rules).issues ≠ []) := by
  refine ⟨fun p => scanPattern_eq_spec p tree, ?_,
    detectMigration_needed_iff tree name fw cm rules⟩
  rcases detectMigration_issues tree name fw cm rules with h | ⟨rule, hrule, h⟩
  · simp [h]
  · rw [h]
    have hflat : rule.patterns.flatMap (fun p => scanPattern p tree) =
        rule.patterns.flatMap (fun p => specPatternIssues p tree) :=
      congrArg (fun g => rule.patterns.flatMap g)
        (funext fun p => scanPattern_eq_spec p tree)
    rw [hflat, List.map_flatMap, List.nodup_flatMap]
    constructor
    · intro p _
      exact specPatternIssues_keys_nodup p tree (walkFiles_nodup _ 6 tree hwf.1 hwf.2)
    · have hnd : rule.patterns.Pairwise (fun a b => a.source ≠ b.source) :=
        List.pairwise_map.mp (hsrc rule hrule)
      refine hnd.imp ?_
      intro p q hne k hk1 hk2
      have e1 : k.1 = p.source := by
        rcases List.mem_map.mp hk1 with ⟨is, his, rfl⟩
        exact (specPatternIssues_fields p tree is his).1
      have e2 : k.1 = q.source := by
        rcases List.mem_map.mp hk2 with ⟨is, his, rfl⟩
        exact (specPatternIssues_fields q tree is his).1
      exact hne (e1 ▸ e2)

/-- C6 witness: on the sample Svelte project with the sample rule, the key
uniqueness holds, both hypotheses being discharged concretely. -/
theorem detectMigration_line_independent_witness :
    ((detectMigration sampleTree "app" "svelte" (some 4) sampleRules).issues.map
      issueKey).Nodup :=
  (detectMigration_line_independent sampleTree "app" "svelte" (some 4) sampleRules
    ⟨by decide, by
      intro e he
      rw [sampleTree, List.mem_singleton] at he
      subst he
      simp [entryWF]⟩
    (by
      intro r hr
      rw [sampleRules, List.mem_singleton] at hr
      subst hr
      decide)).2.1

/-- C10: the file walk skips every entry whose name starts with `"."`,
whether it is a file or a directory, so no walked path — and hence no
emitted `MigrationIssue` — names a hidden file or a file inside a hidden
directory. -/
theorem migration_issues_never_hidden (exts : List String) (fuel : ℕ)
    (es tree : List FsEntry) (name fw : String) (cm : Option ℕ)
    (rules : List MigRule) :
    (∀ pth ∈ walkFiles exts fuel es,
      pth ≠ [] ∧ ∀ c ∈ pth, strStartsWith c "." = false) ∧
    (∀ is ∈ (detectMigration tree name fw cm rules).issues,
      is.file ≠ [] ∧ ∀ c ∈ is.file, strStartsWith c "." = false) := by
  refine ⟨fun pth h => walkFiles_no_hidden exts fuel es pth h, ?_⟩
  intro is h
  rcases detectMigration_issues tree name fw cm rules with hi | ⟨rule, -, hi⟩
  · rw [hi] at h
    simp at h
  · rw [hi] at h
    rcases List.mem_flatMap.mp h with ⟨p, -, hp⟩
    rw [scanPattern_eq_spec] at hp
    exact walkFiles_no_hidden _ 6 tree is.file (specPatternIssues_fields p tree is hp).2

/-- C10 witness: in a project containing both a visible and a hidden
`.svelte` file, the walk returns exactly the visible one, and the theorem
applies to it. -/
theorem migration_issues_never_hidden_witness :
    strStartsWith "App.svelte" "." = false :=
  ((migration_issues_never_hidden [".svelte"] 6
      [.file ".hidden.svelte" "x", .file "App.svelte" "x"] [] "" "" none []).1
    ["App.svelte"]
    (by simp [walkFiles, walkEntry, SKIP_DIRS]; decide)).2 "App.svelte" (by decide)

section OsvLemmas

/-- The inner result loop, described positionally: starting at local index
`j`, provided every touched package index is in range. -/
lemma processResults_enumFrom (packages : List Pkg) (eco : String) (i : ℕ) :
    ∀ (results : List (Option (List RawVuln))) (j : ℕ),
      i + j + results.length ≤ packages.length →
      processResults packages eco i results j =
        (List.enumFrom j results).flatMap (fun jr =>
          match jr.2 with
          | some (v :: vs) => (v :: vs).map (mkVuln eco (packages.getD (i + jr.1) ⟨"", ""⟩))
          | _ => []) := by
  intro results
  induction results with
  | nil => intro j h; rfl
  | cons r rest ih =>
    intro j h
    have h' : i + (j + 1) + rest.length ≤ packages.length := by
      simp only [List.length_cons] at h; omega
    cases r with
    | none =>
      simp only [List.enumFrom, List.flatMap_cons]
      exact ih (j + 1) h'
    | some l =>
      cases l with
      | nil =>
        simp only [List.enumFrom, List.flatMap_cons]
        exact ih (j + 1) h'
      | cons v vs =>
        have hlt : i + j < packages.length := by
          simp only [List.length_cons] at h; omega
        have hsome := List.getElem?_eq_getElem hlt
        simp only [processResults, hsome, List.enumFrom, List.flatMap_cons]
        rw [List.getD_eq_getElem packages ⟨"", ""⟩ hlt]
        exact congrArg _ (ih (j + 1) h')

lemma numBatches_step (n : ℕ) (h : 0 < n) : numBatches n = numBatches (n - 100) + 1 := by
  unfold numBatches; omega

lemma batchStarts_pos (n : ℕ) (h : 0 < n) :
    batchStarts n = 0 :: (batchStarts (n - 100)).map (· + 100) := by
  unfold batchStarts
  rw [numBatches_step n h, List.range_succ_eq_map]
  simp only [List.map_cons, Nat.zero_mul, List.map_map]
  refine congrArg _ (List.map_congr_left ?_)
  intro a ha
  simp [Nat.succ_mul, Nat.add_comm]

lemma osvBatch_shift (queries : List OsvQuery) (s : ℕ) :
    osvBatch queries (s + 100) = osvBatch (queries.drop 100) s := by
  unfold osvBatch
  rw [List.drop_drop, Nat.add_comm]

/-- Joining the consecutive 100-slices recovers the query list. -/
lemma chunks_flatten :
    ∀ (n : ℕ) (queries : List OsvQuery), queries.length ≤ n →
      ((batchStarts queries.length).map (osvBatch queries)).flatten = queries := by
  intro n
  induction n with
  | zero =>
    intro queries hq
    have : queries = [] := List.eq_nil_of_length_eq_zero (Nat.le_zero.mp hq)
    subst this; rfl
  | succ n ih =>
    intro queries hq
    rcases Nat.eq_zero_or_pos queries.length with h0 | hpos
    · have : queries = [] := List.eq_nil_of_length_eq_zero h0
      subst this; rfl
    · rw [batchStarts_pos _ hpos]
      simp only [List.map_cons, List.flatten_cons, List.map_map]
      have hmap : (batchStarts (queries.length - 100)).map (osvBatch queries ∘ (· + 100)) =
          (batchStarts (queries.drop 100).length).map (osvBatch (queries.drop 100)) := by
        rw [List.length_drop]
        exact List.map_congr_left fun s _ => osvBatch_shift queries s
      rw [hmap, ih (queries.drop 100) (by rw [List.length_drop]; omega)]
      show (queries.drop 0).take 100 ++ queries.drop 100 = queries
      rw [List.drop_zero, List.take_append_drop]

/-- A `flatMap` is unchanged by dropping indices on which the function is
empty. -/
lemma flatMap_filter_ne {α : Type} (f : ℕ → List α) (i0 : ℕ) (hf : f i0 = []) :
    ∀ l : List ℕ, l.flatMap f = (l.filter (· ≠ i0)).flatMap f := by
  intro l
  induction l with
  | nil => rfl
  | cons a t ih =>
    by_cases ha : a = i0
    · subst ha
      simp [List.flatMap_cons, hf, ih]
    · simp [List.flatMap_cons, ha, ih]

end OsvLemmas

/-- C1: `queryOsv` partitions its input into consecutive batches of 100
(the requests join back to the full query list, each has ≤ 100 entries,
their count is `⌈n/100⌉`, so a 250-package input issues exactly 3), and a
successful batch's results are attributed positionally: local index `j` of
the batch starting at `i` maps to the package at global index `i + j`. -/
theorem queryOsv_batching_positional (net : OsvNet) (packages : List Pkg) (eco : String) :
    ((osvRequests packages eco).flatten = packages.map (toQuery eco)) ∧
    (∀ b ∈ osvRequests packages eco, b.length ≤ 100) ∧
    ((osvRequests packages eco).length = numBatches packages.length) ∧
    (packages.length = 250 → (osvRequests packages eco).length = 3) ∧
    (∀ i results, net i = some results → i + results.length ≤ packages.length →
      queryOsvBatch net packages eco i = specAttributedVulns packages eco i results) := by
  have hlen : (packages.map (toQuery eco)).length = packages.length := List.length_map _ _
  refine ⟨?_, ?_, ?_, ?_, ?_⟩
  · unfold osvRequests
    rw [← hlen]
    exact chunks_flatten _ _ le_rfl
  · intro b hb
    rcases List.mem_map.mp hb with ⟨i, -, rfl⟩
    unfold osvBatch
    simp
  · unfold osvRequests batchStarts
    simp
  · intro h250
    unfold osvRequests batchStarts
    rw [h250]
    simp
    rfl
  · intro i results hnet hrange
    unfold queryOsvBatch
    rw [hnet]
    exact processResults_enumFrom packages eco i results 0 (by omega)

/-- C1 witness: 250 packages yield 3 requests, and the batch at start index
100 with a successful two-entry response attributes local index 1 to global
package index 101. -/
theorem queryOsv_batching_positional_witness :
    ((osvRequests (List.replicate 250 (⟨"left-pad", "1.0.0"⟩ : Pkg)) "npm").length = 3) ∧
    (queryOsvBatch
        (fun i => if i = 100
          then some [none, some [⟨"GHSA-xxxx", none, none, some 5, none, none, none⟩]]
          else none)
        (List.replicate 250 (⟨"left-pad", "1.0.0"⟩ : Pkg)) "npm" 100 =
      specAttributedVulns (List.replicate 250 (⟨"left-pad", "1.0.0"⟩ : Pkg)) "npm" 100
        [none, some [⟨"GHSA-xxxx", none, none, some 5, none, none, none⟩]]) := by
  constructor
  · exact (queryOsv_batching_positional (fun _ => none)
      (List.replicate 250 (⟨"left-pad", "1.0.0"⟩ : Pkg)) "npm").2.2.2.1
      (by rw [List.length_replicate])
  · exact (queryOsv_batching_positional
      (fun i => if i = 100
        then some [none, some [⟨"GHSA-xxxx", none, none, some 5, none, none, none⟩]]
        else none)
      (List.replicate 250 (⟨"left-pad", "1.0.0"⟩ : Pkg)) "npm").2.2.2.2 100
      [none, some [⟨"GHSA-xxxx", none, none, some 5, none, none, none⟩]]
      rfl
      (by rw [List.length_replicate]; simp only [List.length_cons, List.length_nil]; omega)

/-- C8: a batch whose network request fails (exception, timeout, or non-OK
response, all modelled by `net i0 = none`) contributes no vulnerabilities,
and `queryOsv` still returns the contribution of every other batch. -/
theorem queryOsv_failed_batch_skipped (net : OsvNet) (packages : List Pkg)
    (eco : String) (i0 : ℕ) (hfail : net i0 = none) :
    queryOsvBatch net packages eco i0 = [] ∧
    queryOsv net packages eco =
      ((batchStarts packages.length).filter (· ≠ i0)).flatMap
        (queryOsvBatch net packages eco) := by
  have hempty : queryOsvBatch net packages eco i0 = [] := by
    unfold queryOsvBatch
    rw [hfail]
  exact ⟨hempty, flatMap_filter_ne _ i0 hempty _⟩

/-- C8 witness: with a network that fails the first batch of a one-package
scan, that batch contributes `[]` and the scan still completes. -/
theorem queryOsv_failed_batch_skipped_witness :
    queryOsvBatch (fun _ => none) [(⟨"a", "1"⟩ : Pkg)] "npm" 0 = [] ∧
    queryOsv (fun _ => none) [(⟨"a", "1"⟩ : Pkg)] "npm" =
      ((batchStarts 1).filter (· ≠ 0)).flatMap
        (queryOsvBatch (fun _ => none) [(⟨"a", "1"⟩ : Pkg)] "npm") :=
  queryOsv_failed_batch_skipped (fun _ => none) [(⟨"a", "1"⟩ : Pkg)] "npm" 0 rfl

/-- C7: `fetchLibraryDocs` results in an error exactly when the initial
registry-metadata fetch yields no usable data — the fetch fails (`none`)
or its body does not parse; any combination of later fetch failures (the
`net` oracle is arbitrary on every other URL) still produces a result. -/
theorem fetchLibraryDocs_error_iff (net : String → Option String)
    (parseNpm : String → Option NpmRegistryData)
    (extractRepo : String → Option (String × String))
    (pkg : String) (query : Option String) (opts : DocsOpts) :
    (∃ e, fetchLibraryDocs net parseNpm extractRepo pkg query opts = .error e) ↔
    (net (registryUrl pkg) = none ∨
      ∃ s, net (registryUrl pkg) = some s ∧ parseNpm s = none) := by
  cases h1 : net (registryUrl pkg) with
  | none => simp [fetchLibraryDocs, h1]
  | some s =>
    cases h2 : parseNpm s with
    | none => simp [fetchLibraryDocs, h1, h2]
    | some d => simp [fetchLibraryDocs, h1, h2]

/-- C5 counterexample: a successfully scanned project with zero outdated
packages is still written to the cache — the cache write does not filter
on a non-zero outdated count, contrary to the claim. -/
theorem checker_cache_zero_outdated_counterexample :
    (checkerEntries (fun _ => some []) (fun _ _ => false)
        [⟨"clean-app", "/home/dev/clean-app", "node", "svelte"⟩]).map
      (fun e => e.outdatedCount) = [0] := by
  rfl

/-- C5 (amended): the live multi-project vulnerability scan keeps a
project only with a non-empty vulnerability list, and the migration scan
only with `migrationNeeded` (equivalently a non-empty issue list); the
background cache write, however, includes every successfully scanned
project regardless of outdated count — only the logged alert count is
restricted to non-zero outdated counts. -/
theorem batch_summaries_actionable
    (getOutdated : ProjectInfo → Option (List (String × OutdatedPkg)))
    (isMajor : String → String → Bool) (projects : List ProjectInfo)
    (net : ProjectInfo → OsvNet) (inv : String → String → List Pkg)
    (mprojects : List MigProjectSpec) (rules : List MigRule) :
    (∀ info ∈ projects, ∀ out, getOutdated info = some out →
      mkCacheEntry isMajor info out ∈ checkerEntries getOutdated isMajor projects) ∧
    (∀ entries : List CacheEntry,
      checkerAlertCount entries =
        (entries.filter (fun e => decide (0 < e.outdatedCount))).length) ∧
    (∀ r ∈ liveAuditAllProjects net inv projects, r.vulnerabilities ≠ []) ∧
    (∀ r ∈ detectAllMigrations mprojects rules,
      r.migrationNeeded = true ∧ r.issues ≠ []) := by
  refine ⟨?_, fun entries => rfl, ?_, ?_⟩
  · intro info hinfo out hout
    unfold checkerEntries
    exact List.mem_filterMap.mpr ⟨info, hinfo, by rw [hout]; rfl⟩
  · intro r
    induction projects with
    | nil => intro hr; simp [liveAuditAllProjects] at hr
    | cons p rest ih =>
      intro hr
      by_cases hpos :
          0 < (liveAuditProject (net p) inv p.path p.name p.language).vulnerabilities.length
      · rw [liveAuditAllProjects, if_pos hpos] at hr
        rcases List.mem_cons.mp hr with rfl | hr'
        · exact List.ne_nil_of_length_pos hpos
        · exact ih hr'
      · rw [liveAuditAllProjects, if_neg hpos] at hr
        exact ih hr
  · intro r hr
    unfold detectAllMigrations at hr
    have h1 := List.of_mem_filter hr
    rcases List.mem_map.mp (List.mem_of_mem_filter hr) with ⟨p, -, rfl⟩
    exact ⟨h1,
      (detectMigration_needed_iff p.tree p.name p.framework p.currentMajor rules).mp h1⟩

/-- C5 witness: a project with one outdated package is written to the
cache, instantiating the inclusion part of the amended theorem. -/
theorem batch_summaries_actionable_witness :
    mkCacheEntry (fun _ _ => false) ⟨"app", "/p", "node", "svelte"⟩
        [("left-pad", ⟨"1.0.0", "2.0.0"⟩)] ∈
      checkerEntries (fun _ => some [("left-pad", ⟨"1.0.0", "2.0.0"⟩)]) (fun _ _ => false)
        [⟨"app", "/p", "node", "svelte"⟩] :=
  (batch_summaries_actionable (fun _ => some [("left-pad", ⟨"1.0.0", "2.0.0"⟩)])
    (fun _ _ => false) [⟨"app", "/p", "node", "svelte"⟩] (fun _ _ => none)
    (fun _ _ => []) [] []).1 ⟨"app", "/p", "node", "svelte"⟩
    (List.mem_singleton_self _) _ rfl

/-- C9 witness: applying the classification theorem to `"3.2.0"` vs
`"4.0.0"`, whose first components differ, yielding `major`. -/
theorem getUpdateType_first_diff_witness :
    getUpdateType "3.2.0" "4.0.0" =
      (if (parseVersion "4.0.0").getD 0 0 ≠ (parseVersion "3.2.0").getD 0 0 then .major
       else if (parseVersion "4.0.0").getD 1 0 ≠ (parseVersion "3.2.0").getD 1 0 then .minor
       else .patch) :=
  (getUpdateType_first_diff "3.2.0" "4.0.0"
    ⟨0, fun j hj => absurd hj (Nat.not_lt_zero j), by decide⟩).1

end Depsonar
